import Mathlib

/-!
Verification development for the NARPS consensus analysis
(`ImageAnalyses/ConsensusAnalysis.py`).

The numerical pipeline is embedded shallowly: the feature matrix handed to
`run_ttests` by `masker.fit_transform` is a function `Fin n → Fin v → ℚ`
(`n` teams, `v` in-mask voxels), numpy reductions become `Finset` sums over
`Fin`, and exact rational/real arithmetic idealizes floating point.  A numpy
computation that produces no finite number (division by zero giving `inf`,
`0/0` or `sqrt` of a negative number giving `nan`) is modelled by `Option`:
`none` stands for a result vector containing non-finite entries.
-/

namespace ConsensusAnalysis

/-! ### Masker (spec section 4.1)

The masking transform is nilearn's `NiftiMasker`, external to this
repository's sources; it is modelled from the spec.  The 3D grid is taken in
its row-major flattening `Fin d`, and `mask` marks the in-mask voxels. -/

/-! ### FDR correction (spec section 4.3)

`multipletests(pvals, 0.05, 'fdr_tsbh')` is statsmodels code, external to
this repository; it is modelled from the spec as a two-stage
Benjamini–Hochberg procedure, generically over an ordered field so that the
same definitions serve the `ℚ` statements and the `ℝ`-valued pipeline. -/

/-- Mean of team `i`'s voxel values, `numpy.mean(data[i, :])`. -/
def rowMean {n v : ℕ} (M : Fin n → Fin v → ℚ) (i : Fin n) : ℚ :=
  (∑ j, M i j) / v

/-- Per-team variance across voxels: entry `i` of `numpy.var(data, 1)`
(axis 1 is the voxel axis; numpy's default `ddof=0`, divisor `v`).
Source: `ConsensusAnalysis.py` line 53. -/
def rowVar {n v : ℕ} (M : Fin n → Fin v → ℚ) (i : Fin n) : ℚ :=
  (∑ j, (M i j - rowMean M i) ^ 2) / v

/-- Grand mean `img_mean = numpy.mean(data)`, line 52. -/
def imgMean {n v : ℕ} (M : Fin n → Fin v → ℚ) : ℚ :=
  (∑ i, ∑ j, M i j) / (n * v)

/-- Variance estimate `img_var = numpy.mean(numpy.var(data, 1))`, line 53:
the mean over teams of each team's variance across voxels. -/
def imgVar {n v : ℕ} (M : Fin n → Fin v → ℚ) : ℚ :=
  (∑ i, rowVar M i) / n

/-- Mean across teams of the values at voxel `j` (used by the spec's reading
of the variance estimate; the code itself never forms this quantity). -/
def colMean {n v : ℕ} (M : Fin n → Fin v → ℚ) (j : Fin v) : ℚ :=
  (∑ i, M i j) / n

/-- The spec's words for claim C1: the per-voxel sample variance of the `n`
team values at voxel `j`, variance taken across the team dimension
(sample variance, divisor `n - 1`).  This definition follows the spec, not
the source, and is compared against `imgVar`. -/
def colSampVar {n v : ℕ} (M : Fin n → Fin v → ℚ) (j : Fin v) : ℚ :=
  (∑ i, (M i j - colMean M j) ^ 2) / ((n : ℚ) - 1)

/-- The spec's words for claim C1: mean over voxels of the per-voxel sample
variances across teams.  Compared against the source's `imgVar`. -/
def specVariance {n v : ℕ} (M : Fin n → Fin v → ℚ) : ℚ :=
  (∑ j, colSampVar M j) / v

/-- Covariance of team rows `i` and `j` across voxels, `numpy.cov` with its
default `ddof=1`; this is the matrix underlying `numpy.corrcoef(data)`
(line 54). -/
def cov {n v : ℕ} (M : Fin n → Fin v → ℚ) (i j : Fin n) : ℚ :=
  (∑ k, (M i k - rowMean M i) * (M j k - rowMean M j)) / ((v : ℚ) - 1)

/-- Exact characterization of `cc = numpy.corrcoef(data)` (line 54):
`Q i j = cov i j / sqrt (cov i i * cov j j)`, stated without square roots so
that it is decidable over `ℚ`: the square of `Q i j` times the denominator
equals the squared covariance, the signs agree, and the denominator is
nonzero (numpy would produce `nan` entries otherwise).  These conditions
determine `Q` uniquely. -/
def IsCorrcoef {n v : ℕ} (M : Fin n → Fin v → ℚ) (Q : Fin n → Fin n → ℚ) : Prop :=
  ∀ i j, cov M i i * cov M j j ≠ 0 ∧
    Q i j ^ 2 * (cov M i i * cov M j j) = cov M i j ^ 2 ∧
    (0 ≤ Q i j ↔ 0 ≤ cov M i j)

/-- The centering operator `R = numpy.eye(n) - numpy.ones((n,1)).dot(numpy.ones((1,n)))/n`
from the nested `tau` helper, line 85. -/
def Rmat (n : ℕ) (i j : Fin n) : ℚ :=
  (if i = j then 1 else 0) - 1 / n

/-- `sampvar_est = numpy.trace(R.dot(Q))`, line 86. -/
def sampvarEst {n : ℕ} (Q : Fin n → Fin n → ℚ) : ℚ :=
  ∑ i, ∑ j, Rmat n i j * Q j i

/-- The quadratic form `Y.T.dot(R).dot(Y)` from line 90. -/
def quadFormR {n : ℕ} (Y : Fin n → ℚ) : ℚ :=
  ∑ a, ∑ b, Y a * Rmat n a b * Y b

/-- The per-voxel vector `tau2` of lines 87-90:
`tau2[i] = (1/sampvar_est) * Y.T.dot(R).dot(Y)` with `Y = data[:, i]`.
When `sampvar_est = 0` the float division produces `inf`/`nan` at every
voxel, so no finite vector results: modelled as `none`. -/
def tau2Comp {n v : ℕ} (M : Fin n → Fin v → ℚ) (Q : Fin n → Fin n → ℚ) :
    Option (Fin v → ℚ) :=
  if sampvarEst Q = 0 then none
  else some (fun i => quadFormR (fun a => M a i) / sampvarEst Q)

/-- The full nested `tau` helper (lines 83-91): `numpy.sqrt(tau2)`, taken
elementwise.  The source applies no clamping, so a negative `tau2` entry
would give `nan` (`numpy.sqrt` of a negative number): a vector with any
non-finite entry is modelled as `none`. -/
noncomputable def tauComp {n v : ℕ} (M : Fin n → Fin v → ℚ)
    (Q : Fin n → Fin n → ℚ) : Option (Fin v → ℝ) :=
  (tau2Comp M Q).bind fun t2 =>
    if ∀ i, 0 ≤ t2 i then some (fun i => Real.sqrt (t2 i)) else none

/-! Concrete inputs used in counterexamples and witnesses. -/

/-- A 2-team, 2-voxel feature matrix whose rows are constant: every per-team
variance across voxels is `0`, while the per-voxel variance across teams is
not. -/
def M0 : Fin 2 → Fin 2 → ℚ := ![![0, 0], ![1, 1]]

/-- The spec's concrete scenario: 4 teams, 3 voxels, every row `[1, 2, 3]`. -/
def M2 : Fin 4 → Fin 3 → ℚ := fun _ => ![1, 2, 3]

/-- The all-ones 4×4 correlation matrix produced by `numpy.corrcoef` on four
identical rows. -/
def Qones : Fin 4 → Fin 4 → ℚ := fun _ _ => 1

/-- A concrete 2-team, 1-voxel input for the tau witness. -/
def d4 : Fin 2 → Fin 1 → ℚ := ![![0], ![2]]

/-- The identity correlation matrix on two teams. -/
def q4 : Fin 2 → Fin 2 → ℚ := ![![1, 0], ![0, 1]]

/-- The tau vector computed on `d4` with correlation `q4`. -/
noncomputable def t4 : Fin 1 → ℝ := fun _ => Real.sqrt 2

/-- Modelled from the spec: the fixed deterministic (row-major) enumeration
of the in-mask voxel indices used by `masker.fit_transform`. -/
def maskIdxs (d : ℕ) (mask : Fin d → Bool) : List (Fin d) :=
  (List.finRange d).filter mask

/-- The number `v` of in-mask voxels. -/
def nVox (d : ℕ) (mask : Fin d → Bool) : ℕ := (maskIdxs d mask).length

/-- Modelled from the spec: `forward(mask, image)` samples the voxels where
the mask is true, in the fixed deterministic ordering
(`masker.fit_transform` applied to a single image, line 49). -/
def forward (d : ℕ) (mask : Fin d → Bool) (img : Fin d → ℚ)
    (k : Fin (nVox d mask)) : ℚ :=
  img ((maskIdxs d mask).get k)

/-- Modelled from the spec: `inverse(mask, x)`
(`masker.inverse_transform`, lines 68-94) scatters the vector back into the
grid, with `0` outside the mask. -/
def inverse (d : ℕ) (mask : Fin d → Bool) (x : Fin (nVox d mask) → ℚ)
    (p : Fin d) : ℚ :=
  if h : p ∈ maskIdxs d mask
  then x ⟨(maskIdxs d mask).indexOf p, List.indexOf_lt_length.mpr h⟩
  else 0

/-! ### Deterministic input ordering (source lines 45-49) -/

/-- The in-place `maps.sort()` of line 48.  Python sorts strings
lexicographically; since the sorted permutation of a list is unique for a
linear order, any comparison sort models it. -/
def sortPaths (l : List String) : List String := l.insertionSort (· ≤ ·)

/-- Lines 45-49: the discovered per-team map files are sorted and masked
into the feature matrix; row `t` is team `t`'s in-mask voxel vector.
Loading one volumetric file is abstracted as `load`. -/
def stackData (d : ℕ) (mask : Fin d → Bool) (load : String → Fin d → ℚ)
    (paths : List String) : List (List ℚ) :=
  (sortPaths paths).map fun pth => (maskIdxs d mask).map (load pth)

/-- Two concrete path enumerations in different filesystem orders. -/
def pl1 : List String :=
  ["zstat/teamB/hypo1_unthresh.nii.gz", "zstat/teamA/hypo1_unthresh.nii.gz"]

/-- The same paths in the other order. -/
def pl2 : List String :=
  ["zstat/teamA/hypo1_unthresh.nii.gz", "zstat/teamB/hypo1_unthresh.nii.gz"]

/-- A trivial loader for the C10 witness. -/
def load0 : String → Fin 1 → ℚ := fun _ _ => 0

/-! ### Error taxonomy (spec section 7) and the correlated t-test -/

/-- The error taxonomy of spec section 7. -/
inductive ConsensusError
  | ShapeMismatch
  | DegenerateInput
  | NumericInstability
deriving DecidableEq

/-- Modelled from the spec: the adjusted standard error of spec section 4.2,
`sqrt(variance * (sum of all entries of Q) / n^2)`. -/
noncomputable def adjSE {n : ℕ} (resVar : ℚ) (Q : Fin n → Fin n → ℚ) : ℝ :=
  Real.sqrt ((resVar : ℝ) * (∑ i, ∑ j, (Q i j : ℝ)) / (n ^ 2))

/-- Modelled from the spec: the per-voxel correlated t-statistic,
`t = voxel_mean / adjusted_standard_error`. -/
noncomputable def tVec {n v : ℕ} (M : Fin n → Fin v → ℚ) (resVar : ℚ)
    (Q : Fin n → Fin n → ℚ) (j : Fin v) : ℝ :=
  (colMean M j : ℝ) / adjSE resVar Q

/-- Modelled from the spec: two-sided p-values from the t-distribution with
`n - 1` degrees of freedom, whose CDF is the parameter `tcdf`. -/
noncomputable def pVec {n v : ℕ} (tcdf : ℕ → ℝ → ℝ) (M : Fin n → Fin v → ℚ)
    (resVar : ℚ) (Q : Fin n → Fin n → ℚ) (j : Fin v) : ℝ :=
  2 * (1 - tcdf (n - 1) |tVec M resVar Q j|)

/-- Modelled from the spec: `t_corr` is defined in `utils.py`, which is not
among the sources — only its call site (line 62) is.  Per spec section 4.2
it fails with `DegenerateInput` when `n < 2` or the variance estimate is
zero (a NaN variance cannot arise in exact arithmetic), and otherwise
returns the per-voxel t-statistics and two-sided p-values. -/
noncomputable def t_corr {n v : ℕ} (tcdf : ℕ → ℝ → ℝ)
    (M : Fin n → Fin v → ℚ) (resMean resVar : ℚ) (Q : Fin n → Fin n → ℚ) :
    Except ConsensusError ((Fin v → ℝ) × (Fin v → ℝ)) :=
  if n < 2 then .error .DegenerateInput
  else if resVar = 0 then .error .DegenerateInput
  else .ok (tVec M resVar Q, pVec tcdf M resVar Q)

section FDRModel

variable {K : Type} [LinearOrderedField K]

/-- The p-values sorted ascending. -/
def sortedP {m : ℕ} (p : Fin m → K) : List K :=
  (List.ofFn p).insertionSort (· ≤ ·)

/-- Entry `k` (0-based) of the sorted p-value list (`1` out of range). -/
def spAt {m : ℕ} (p : Fin m → K) (k : ℕ) : K := (sortedP p).getD k 1

/-- Modelled from the spec: the Benjamini–Hochberg adjusted p-value at
sorted position `k`, the running minimum from the right of
`m * p_(j) / (j + 1)`. -/
def bhAdjAt (m : ℕ) (p : Fin m → K) (k : ℕ) : K :=
  if h : k < m
  then (Finset.Ico k m).inf' (Finset.nonempty_Ico.mpr h)
    fun j => (m : K) * spAt p j / (j + 1)
  else 1

/-- The BH rejection count at level `a`: how many sorted positions have an
adjusted p-value at most `a` (statsmodels rejects via
`pvals_corrected <= alpha`). -/
def bhCount (m : ℕ) (p : Fin m → K) (a : K) : ℕ :=
  ((Finset.range m).filter fun k => bhAdjAt m p k ≤ a).card

/-- Modelled from the spec: the two-stage (`'fdr_tsbh'`) rejection count.
Stage 1 runs BH at `a / (1 + a)`; when the stage-1 count `r1` is strictly
between `0` and `m`, stage 2 reruns BH at level `a/(1+a) * m / (m - r1)`;
the degenerate stages return the stage-1 result. -/
def tsbhCount (m : ℕ) (p : Fin m → K) (a : K) : ℕ :=
  if bhCount m p (a / (1 + a)) = 0 then 0
  else if bhCount m p (a / (1 + a)) = m then m
  else bhCount m p
    (a / (1 + a) * m / ((m - bhCount m p (a / (1 + a)) : ℕ) : K))

/-- The 0-based position of `p i` in the stable ascending sort of `p`. -/
def rankOf {m : ℕ} (p : Fin m → K) (i : Fin m) : ℕ :=
  (Finset.univ.filter fun j => p j < p i ∨ (p j = p i ∧ j < i)).card

/-- Modelled from the spec: the adjusted p-values returned by the two-stage
procedure (stage-2 BH adjusted p-values rescaled by `(m - r1)/m` and by the
stage-1 factor `1 + a`, clipped at `1`); used as output file content. -/
def tsbhPadj (m : ℕ) (p : Fin m → K) (a : K) (i : Fin m) : K :=
  if bhCount m p (a / (1 + a)) = 0 ∨ bhCount m p (a / (1 + a)) = m
  then min 1 ((1 + a) * bhAdjAt m p (rankOf p i))
  else min 1 ((1 + a) * (((m - bhCount m p (a / (1 + a)) : ℕ) : K) / m)
    * bhAdjAt m p (rankOf p i))

end FDRModel

/-! ### The per-hypothesis pipeline of `run_ttests` (lines 38-97) -/

/-- Output file name of the t-map (line 69). -/
def tName (hyp : ℕ) : String := "hypo" ++ toString hyp ++ "_t.nii.gz"

/-- Output file name of the (1 - p)-map (line 71). -/
def pName (hyp : ℕ) : String := "hypo" ++ toString hyp ++ "_1-p.nii.gz"

/-- Output file name of the (1 - FDR)-map (lines 40-41, 78-80). -/
def fdrName (hyp : ℕ) : String := "hypo" ++ toString hyp ++ "_1-fdr.nii.gz"

/-- Output file name of the tau map (lines 95-97). -/
def tauName (hyp : ℕ) : String := "hypo" ++ toString hyp ++ "_tau.nii.gz"

/-- The four volumes written for one hypothesis in source order (lines
68-97): t, 1-p, 1-fdr, tau.  A content of `none` is a written file whose
vector contains non-finite values (the tau map when `sampvar_est = 0`). -/
noncomputable def outFiles {v : ℕ} (hyp : ℕ) (t p : Fin v → ℝ)
    (tauRes : Option (Fin v → ℝ)) : List (String × Option (Fin v → ℝ)) :=
  [(tName hyp, some t),
   (pName hyp, some fun j => 1 - p j),
   (fdrName hyp, some fun j => 1 - tsbhPadj v p (1 / 20) j),
   (tauName hyp, tauRes)]

/-- One hypothesis of `run_ttests` (lines 49-97) after masking: derive the
global moments (lines 52-53), run the spec-modelled correlated t-test
(line 62), and on success emit the four volumes, including the FDR map
(line 72) and the tau map (line 93).  `Q` stands for
`cc = numpy.corrcoef(data)` (line 54), whose exact value is characterized
by `IsCorrcoef`.  An uncaught `t_corr` error aborts the hypothesis before
any file is produced, exactly as in the source, where the `t_corr` call
precedes the first `to_filename`. -/
noncomputable def processHyp {n v : ℕ} (tcdf : ℕ → ℝ → ℝ) (hyp : ℕ)
    (M : Fin n → Fin v → ℚ) (Q : Fin n → Fin n → ℚ) :
    Except ConsensusError (List (String × Option (Fin v → ℝ))) :=
  (t_corr tcdf M (imgMean M) (imgVar M) Q).map fun tp =>
    outFiles hyp tp.1 tp.2 (tauComp M Q)

/-- The files a run leaves behind: none when the hypothesis aborted. -/
def writtenFiles {v : ℕ} :
    Except ConsensusError (List (String × Option (Fin v → ℝ))) →
      List (String × Option (Fin v → ℝ))
  | .error _ => []
  | .ok l => l

/-- The names of the files a run leaves behind. -/
def writtenNames {v : ℕ}
    (r : Except ConsensusError (List (String × Option (Fin v → ℝ)))) :
    List String :=
  (writtenFiles r).map Prod.fst

/-- Looks up the content written under a file name. -/
def findContent {v : ℕ} (l : List (String × Option (Fin v → ℝ)))
    (nm : String) : Option (Option (Fin v → ℝ)) :=
  match l with
  | [] => none
  | e :: rest => if e.1 = nm then some e.2 else findContent rest nm

/-- A concrete stand-in for the t-distribution CDF, for closed statements
(the facts below do not depend on the CDF's values). -/
noncomputable def tcdf0 : ℕ → ℝ → ℝ := fun _ _ => 1 / 2

/-- A degenerate single-team input. -/
def d1 : Fin 1 → Fin 1 → ℚ := fun _ _ => 0

/-- A trivial 1×1 correlation matrix. -/
def q1 : Fin 1 → Fin 1 → ℚ := fun _ _ => 1

/-! ### The overwrite policy (lines 38-43) -/

/-- A results directory keyed by file name (`none` = file absent). -/
def FS (v : ℕ) : Type := String → Option (Option (Fin v → ℝ))

/-- Writing one file (`to_filename`): create or overwrite. -/
def setFile {v : ℕ} (fs : FS v) (nm : String) (c : Option (Fin v → ℝ)) :
    FS v :=
  fun s => if s = nm then some c else fs s

/-- Writing a list of files in order. -/
def writeAll {v : ℕ} : List (String × Option (Fin v → ℝ)) → FS v → FS v
  | [], fs => fs
  | e :: t, fs => writeAll t (setFile fs e.1 e.2)

/-- The effect of one hypothesis on the results directory: an uncaught
error leaves it untouched, success writes the produced files. -/
def applyRun {v : ℕ} (fs : FS v) :
    Except ConsensusError (List (String × Option (Fin v → ℝ))) → FS v
  | .error _ => fs
  | .ok files => writeAll files fs

/-- Lines 38-43 around the per-hypothesis body: with `overwrite=False` the
hypothesis is skipped when the `hypo{N}_1-fdr.nii.gz` artifact exists (only
that one file is checked); otherwise the hypothesis is recomputed and its
volumes written. -/
noncomputable def runHyp {n v : ℕ} (tcdf : ℕ → ℝ → ℝ) (overwrite : Bool)
    (hyp : ℕ) (fs : FS v) (M : Fin n → Fin v → ℚ)
    (Q : Fin n → Fin n → ℚ) : FS v :=
  if overwrite = false ∧ (fs (fdrName hyp)).isSome = true then fs
  else applyRun fs (processHyp tcdf hyp M Q)

/-- A concrete directory holding only the `1-fdr` sentinel of hypothesis 1. -/
def fs0 : FS 3 := fun s => if s = fdrName 1 then some none else none

/-- A concrete 3-voxel p-value vector. -/
def p0 : Fin 3 → ℚ := ![1 / 100, 1 / 5, 9 / 10]

/-! ### Lemmas and theorems -/

/-- For the all-ones correlation matrix, `trace(R.dot(Q))` vanishes exactly:
each row of the centering operator `R` sums to zero. -/
lemma sampvarEst_ones {n : ℕ} (hn : 0 < n) :
    sampvarEst (fun (_ _ : Fin n) => (1 : ℚ)) = 0 := by
  have hn' : (n : ℚ) ≠ 0 := Nat.cast_ne_zero.mpr hn.ne'
  simp [sampvarEst, Rmat, Finset.sum_sub_distrib, Finset.sum_const,
    Finset.card_univ, nsmul_eq_mul, mul_one_div, div_self hn']
  exact Or.inr (by rw [mul_inv_cancel₀ hn']; norm_num)

/-- On the all-identical-rows input, `trace(R.dot(Q))` vanishes exactly. -/
lemma sampvarEst_Qones : sampvarEst Qones = 0 := sampvarEst_ones (by norm_num)

/-- Every row of the concrete scenario has mean `2`. -/
lemma rowMean_M2 (i : Fin 4) : rowMean M2 i = 2 := by
  have h0 : M2 i 0 = 1 := rfl
  have h1 : M2 i 1 = 2 := rfl
  have h2 : M2 i 2 = 3 := rfl
  rw [rowMean, Fin.sum_univ_three, h0, h1, h2]
  norm_num

/-- On the concrete scenario every pairwise covariance (numpy `ddof=1`) is
exactly `1`, so `numpy.corrcoef` is exactly the all-ones matrix. -/
lemma cov_M2 (i j : Fin 4) : cov M2 i j = 1 := by
  have h0 : ∀ a : Fin 4, M2 a 0 = 1 := fun _ => rfl
  have h1 : ∀ a : Fin 4, M2 a 1 = 2 := fun _ => rfl
  have h2 : ∀ a : Fin 4, M2 a 2 = 3 := fun _ => rfl
  rw [cov, Fin.sum_univ_three]
  simp only [rowMean_M2, h0, h1, h2]
  norm_num

/-- On the all-identical-rows input the tau computation yields no finite
value: `sampvar_est = 0`, so `tau2 = (1/0) * 0` is `nan` at every voxel. -/
lemma tauComp_M2_Qones : tauComp M2 Qones = none := by
  simp [tauComp, tau2Comp, sampvarEst_Qones]

/-- C1, counterexample.  The claim says the variance estimate fed into the
correlated t-test equals the mean over voxels of the per-voxel sample
variance across teams.  On `M0 = [[0,0],[1,1]]` the code's
`numpy.mean(numpy.var(data, 1))` is `0` (each row is constant), while the
claimed per-voxel quantity is `1/2`. -/
theorem variance_axis_counterexample : imgVar M0 ≠ specVariance M0 := by
  norm_num [imgVar, specVariance, rowVar, rowMean, colSampVar, colMean, M0,
    Fin.sum_univ_two]

/-- C1, amended.  The variance estimate `img_var` computed on line 53 is the
mean over the `n` teams of each team's variance across its `v` voxel values
(numpy `ddof=0`): for positive `v` it equals the average of the per-team
second moments minus squared means, taken along the voxel axis — not any
per-voxel variance across teams. -/
theorem variance_estimate_rowwise {n v : ℕ} (hv : 0 < v)
    (M : Fin n → Fin v → ℚ) :
    imgVar M = (∑ i, ((∑ j, M i j ^ 2) / v - rowMean M i ^ 2)) / n := by
  have hv' : (v : ℚ) ≠ 0 := Nat.cast_ne_zero.mpr hv.ne'
  have key : ∀ i, rowVar M i = (∑ j, M i j ^ 2) / v - rowMean M i ^ 2 := by
    intro i
    have hsum : (∑ j, M i j) = v * rowMean M i := by
      rw [rowMean, mul_div_cancel₀ _ hv']
    have expand : (∑ j, (M i j - rowMean M i) ^ 2)
        = (∑ j, M i j ^ 2) - v * rowMean M i ^ 2 := by
      have step : ∀ j : Fin v, (M i j - rowMean M i) ^ 2
          = M i j ^ 2 - 2 * rowMean M i * M i j + rowMean M i ^ 2 := by
        intro j; ring
      rw [Finset.sum_congr rfl fun j _ => step j, Finset.sum_add_distrib,
        Finset.sum_sub_distrib, ← Finset.mul_sum, hsum, Finset.sum_const,
        Finset.card_univ, Fintype.card_fin, nsmul_eq_mul]
      ring
    rw [rowVar, expand, sub_div, mul_div_cancel_left₀ _ hv']
  rw [imgVar]
  exact congrArg (· / (n : ℚ)) (Finset.sum_congr rfl fun i _ => key i)

/-- C2, counterexample.  The claim says that on the 4×3 matrix with all rows
`[1,2,3]` the tau computation yields values approximately `0` at every
voxel.  It yields no finite value at all: `sampvar_est = trace(R.dot(Q))`
is exactly `0`, the division on line 90 is a division by zero, and every
voxel's `tau2` is `(1/0) * 0`, i.e. `nan`. -/
theorem tau_concrete_counterexample : tauComp M2 Qones = none := by
  simpa using tauComp_M2_Qones

/-- C2, amended.  On the spec's concrete scenario the correlation matrix is
exactly all-ones, the normalizer `sampvar_est = trace(R.dot(Q))` is exactly
`0`, and the tau computation therefore produces no finite result vector
(`0/0`, `nan` at every voxel) rather than values near `0`. -/
theorem tau_concrete_amended :
    IsCorrcoef M2 Qones ∧ sampvarEst Qones = 0 ∧ tauComp M2 Qones = none := by
  refine ⟨fun i j => ?_, sampvarEst_Qones, tauComp_M2_Qones⟩
  norm_num [cov_M2, Qones]

/-- The quadratic form against the centering operator is the residual sum of
squares: `Y.T.dot(R).dot(Y) = Σ Y a ^ 2 - (Σ Y a) ^ 2 / n`. -/
lemma quadFormR_eq {n : ℕ} (Y : Fin n → ℚ) :
    quadFormR Y = (∑ a, Y a ^ 2) - (∑ a, Y a) ^ 2 / n := by
  have step : ∀ a b : Fin n, Y a * Rmat n a b * Y b
      = (if a = b then Y a * Y b else 0) - Y a * Y b * (1 / n) := by
    intro a b
    rw [Rmat]
    split_ifs <;> ring
  calc quadFormR Y
      = ∑ a, ∑ b, ((if a = b then Y a * Y b else 0) - Y a * Y b * (1 / n)) := by
        rw [quadFormR]
        exact Finset.sum_congr rfl fun a _ =>
          Finset.sum_congr rfl fun b _ => step a b
    _ = ∑ a, (Y a * Y a - Y a * (∑ b, Y b) * (1 / n)) := by
        refine Finset.sum_congr rfl fun a _ => ?_
        rw [Finset.sum_sub_distrib, Finset.sum_ite_eq, if_pos (Finset.mem_univ a)]
        congr 1
        rw [← Finset.sum_mul, ← Finset.mul_sum]
    _ = (∑ a, Y a ^ 2) - (∑ a, Y a) ^ 2 / n := by
        rw [Finset.sum_sub_distrib, ← Finset.sum_mul, ← Finset.sum_mul]
        ring

/-- In exact arithmetic the residual sum of squares is nonnegative
(Cauchy–Schwarz); a negative `tau2` entry can only arise from a negative
`sampvar_est` or floating-point noise. -/
lemma quadFormR_nonneg {n : ℕ} (Y : Fin n → ℚ) : 0 ≤ quadFormR Y := by
  rw [quadFormR_eq, sub_nonneg]
  rcases Nat.eq_zero_or_pos n with h | h
  · subst h
    simp
  · rw [div_le_iff₀ (by exact_mod_cast h)]
    calc (∑ a, Y a) ^ 2 ≤ (Finset.univ.card : ℚ) * ∑ a, Y a ^ 2 :=
          sq_sum_le_card_mul_sum_sq
      _ = (∑ a, Y a ^ 2) * n := by
          rw [Finset.card_univ, Fintype.card_fin]; ring

/-- Whenever `sampvar_est` is positive (as it is for every genuine
correlation matrix), all `tau2` entries are automatically nonnegative. -/
lemma tau2_entries_nonneg {n v : ℕ} (M : Fin n → Fin v → ℚ)
    (Q : Fin n → Fin n → ℚ) (hpos : 0 < sampvarEst Q) (t2 : Fin v → ℚ)
    (ht : tau2Comp M Q = some t2) (i : Fin v) : 0 ≤ t2 i := by
  rw [tau2Comp, if_neg hpos.ne'] at ht
  rw [Option.some.injEq] at ht
  rw [← ht]
  exact div_nonneg (quadFormR_nonneg _) hpos.le

/-- C4.  Whenever the tau computation returns a finite vector, every entry of
that vector is nonnegative: each entry is `numpy.sqrt` applied to a
nonnegative `tau2` value (a negative `tau2` entry would produce `nan`, i.e.
no finite vector at all, and the real square root is nonnegative). -/
theorem tau_nonneg {n v : ℕ} (M : Fin n → Fin v → ℚ) (Q : Fin n → Fin n → ℚ)
    (t : Fin v → ℝ) (hn : 2 ≤ n) (h : tauComp M Q = some t) (i : Fin v) :
    0 ≤ t i := by
  rw [tauComp] at h
  cases htc : tau2Comp M Q with
  | none => rw [htc] at h; cases h
  | some t2 =>
    rw [htc] at h
    simp only [Option.some_bind] at h
    by_cases hpos : ∀ k, 0 ≤ t2 k
    · rw [if_pos hpos, Option.some.injEq] at h
      rw [← h]
      exact Real.sqrt_nonneg _
    · rw [if_neg hpos] at h; cases h

/-- On the identity correlation matrix for two teams, `sampvar_est = 1`. -/
lemma sampvarEst_q4 : sampvarEst q4 = 1 := by
  norm_num [sampvarEst, Rmat, q4, Fin.sum_univ_two]

/-- Concrete evaluation: the tau computation on `d4`, `q4` returns the
constant vector `sqrt 2`. -/
lemma tauComp_d4 : tauComp d4 q4 = some t4 := by
  have hq : ∀ i : Fin 1, quadFormR (fun a => d4 a i) = 2 := by
    intro i
    rw [Fin.eq_zero i, quadFormR_eq, Fin.sum_univ_two, Fin.sum_univ_two]
    norm_num [d4]
  have ht2 : tau2Comp d4 q4 = some fun _ => (2 : ℚ) := by
    rw [tau2Comp, if_neg (by rw [sampvarEst_q4]; norm_num)]
    rw [Option.some.injEq]
    funext i
    rw [hq i, sampvarEst_q4]
    norm_num
  rw [tauComp, ht2]
  rw [Option.some_bind, if_pos (fun i => by norm_num)]
  rw [Option.some.injEq]
  funext i
  rw [t4]
  norm_num

/-- C4 witness: on the concrete input `d4` with identity correlation the
computation returns a vector, and its entry is nonnegative. -/
theorem tau_nonneg_witness : 2 ≤ 2 ∧ tauComp d4 q4 = some t4 ∧ 0 ≤ t4 0 :=
  ⟨le_refl 2, tauComp_d4, tau_nonneg d4 q4 t4 (le_refl 2) tauComp_d4 0⟩

/-- The in-mask index enumeration has no duplicates. -/
lemma maskIdxs_nodup (d : ℕ) (mask : Fin d → Bool) :
    (maskIdxs d mask).Nodup :=
  (List.nodup_finRange d).filter _

/-- C7.  Masking is a left inverse of unmasking: scattering a length-`v`
vector into the volume grid and sampling it back through the same mask
recovers the vector exactly (the model is exact arithmetic, so
"within floating-point tolerance" becomes equality). -/
theorem masker_roundtrip (d : ℕ) (mask : Fin d → Bool)
    (x : Fin (nVox d mask) → ℚ) :
    forward d mask (inverse d mask x) = x := by
  funext k
  rw [forward, inverse, dif_pos (show (maskIdxs d mask).get k ∈ maskIdxs d mask
    from List.get_mem _ _ _)]
  exact congrArg x (Fin.ext (List.get_indexOf (maskIdxs_nodup d mask) k))

/-- C10.  Because the discovered paths are sorted before masking, two runs
whose filesystem enumerations are permutations of each other sort to the
same list and produce the same feature matrix, so the analysis output is a
deterministic function of the set of input files. -/
theorem deterministic_row_order (d : ℕ) (mask : Fin d → Bool)
    (load : String → Fin d → ℚ) (l1 l2 : List String) (h : l1.Perm l2) :
    sortPaths l1 = sortPaths l2 ∧
      stackData d mask load l1 = stackData d mask load l2 := by
  have hsorted : sortPaths l1 = sortPaths l2 := by
    refine List.eq_of_perm_of_sorted ?_ (List.sorted_insertionSort _ l1)
      (List.sorted_insertionSort _ l2)
    exact (List.perm_insertionSort _ l1).trans
      (h.trans (List.perm_insertionSort _ l2).symm)
  exact ⟨hsorted, by rw [stackData, stackData, hsorted]⟩

/-- C10 witness: the two concrete enumerations are permutations of each
other and yield identical sorted lists and feature matrices. -/
theorem deterministic_row_order_witness :
    pl1.Perm pl2 ∧ sortPaths pl1 = sortPaths pl2 ∧
      stackData 1 (fun _ => true) load0 pl1
        = stackData 1 (fun _ => true) load0 pl2 := by
  have hp : pl1.Perm pl2 := List.Perm.swap _ _ _
  have h := deterministic_row_order 1 (fun _ => true) load0 pl1 pl2 hp
  exact ⟨hp, h.1, h.2⟩

/-- C3.  With fewer than two teams, or with a zero variance estimate, the
hypothesis fails with `DegenerateInput` before any result vector is
produced. -/
theorem degenerate_input_fails {n v : ℕ} (tcdf : ℕ → ℝ → ℝ) (hyp : ℕ)
    (M : Fin n → Fin v → ℚ) (Q : Fin n → Fin n → ℚ)
    (h : n < 2 ∨ imgVar M = 0) :
    processHyp tcdf hyp M Q = .error .DegenerateInput := by
  have ht : t_corr tcdf M (imgMean M) (imgVar M) Q
      = .error .DegenerateInput := by
    rcases h with h | h
    · rw [t_corr, if_pos h]
    · rcases Nat.lt_or_ge n 2 with h2 | h2
      · rw [t_corr, if_pos h2]
      · rw [t_corr, if_neg (Nat.not_lt.mpr h2), if_pos h]
  rw [processHyp, ht]
  rfl

/-- C3 witness: one team forces the `DegenerateInput` failure. -/
theorem degenerate_input_fails_witness :
    ((1 : ℕ) < 2 ∨ imgVar d1 = 0) ∧
      processHyp tcdf0 1 d1 q1 = .error .DegenerateInput :=
  ⟨Or.inl (by norm_num),
    degenerate_input_fails tcdf0 1 d1 q1 (Or.inl (by norm_num))⟩

/-- C6.  Writes for one hypothesis are all-or-nothing: every modelled
failure (the `t_corr` guard) precedes the first write, so a failed
hypothesis leaves no files and a successful one leaves exactly the four
volumes. -/
theorem outputs_all_or_nothing {n v : ℕ} (tcdf : ℕ → ℝ → ℝ) (hyp : ℕ)
    (M : Fin n → Fin v → ℚ) (Q : Fin n → Fin n → ℚ) :
    writtenFiles (processHyp tcdf hyp M Q) = [] ∨
      writtenNames (processHyp tcdf hyp M Q)
        = [tName hyp, pName hyp, fdrName hyp, tauName hyp] := by
  cases ht : t_corr tcdf M (imgMean M) (imgVar M) Q with
  | error e =>
    left
    rw [processHyp, ht]
    rfl
  | ok tp =>
    right
    rw [writtenNames, processHyp, ht]
    rfl

/-- The variance estimate on the concrete scenario is `2/3`, so the
`t_corr` guard does not fire there. -/
lemma imgVar_M2 : imgVar M2 = 2 / 3 := by
  have hrv : ∀ i : Fin 4, rowVar M2 i = 2 / 3 := by
    intro i
    have h0 : M2 i 0 = 1 := rfl
    have h1 : M2 i 1 = 2 := rfl
    have h2 : M2 i 2 = 3 := rfl
    rw [rowVar, Fin.sum_univ_three, h0, h1, h2]
    simp only [rowMean_M2]
    norm_num
  rw [imgVar, Fin.sum_univ_four, hrv, hrv, hrv, hrv]
  norm_num

/-- Auxiliary: on the concrete scenario the run completes without surfacing
any failure, writes all four volumes, and the content written under the tau
file name is the non-finite (`nan`) vector — whatever the t-distribution
CDF is. -/
lemma processHyp_M2_files (tcdf : ℕ → ℝ → ℝ) :
    findContent (writtenFiles (processHyp tcdf 1 M2 Qones)) (tauName 1)
        = some none ∧
      writtenNames (processHyp tcdf 1 M2 Qones)
        = [tName 1, pName 1, fdrName 1, tauName 1] := by
  have hvar : imgVar M2 ≠ 0 := by rw [imgVar_M2]; norm_num
  have ht : t_corr tcdf M2 (imgMean M2) (imgVar M2) Qones
      = .ok (tVec M2 (imgVar M2) Qones, pVec tcdf M2 (imgVar M2) Qones) := by
    rw [t_corr, if_neg (by norm_num), if_neg hvar]
  have h1 : tName 1 ≠ tauName 1 := by decide
  have h2 : pName 1 ≠ tauName 1 := by decide
  have h3 : fdrName 1 ≠ tauName 1 := by decide
  constructor
  · rw [processHyp, ht]
    show findContent (outFiles 1 _ _ (tauComp M2 Qones)) (tauName 1) = some none
    rw [outFiles, tauComp_M2_Qones]
    rw [findContent, if_neg h1, findContent, if_neg h2, findContent,
      if_neg h3, findContent, if_pos rfl]
  · rw [writtenNames, processHyp, ht]
    rfl

/-- C5, counterexample.  The claim says a NaN/Inf entry in a result vector
is detected and surfaced as a `NumericInstability` failure instead of being
written.  On the all-identical-teams input the tau vector is all-`nan`
(division by `sampvar_est = 0`), yet the run reports no failure and the
`nan` vector is written to the tau output file. -/
theorem nan_written_counterexample :
    findContent (writtenFiles (processHyp tcdf0 1 M2 Qones)) (tauName 1)
        = some none ∧
      writtenNames (processHyp tcdf0 1 M2 Qones)
        = [tName 1, pName 1, fdrName 1, tauName 1] :=
  processHyp_M2_files tcdf0

/-- C5, amended.  `run_ttests` performs no NaN/Inf detection at all: result
vectors are written unconditionally, and in particular the non-finite tau
vector of the all-identical-teams input is written to the tau output file
with no failure surfaced, for every t-distribution CDF. -/
theorem nan_written_unchecked :
    ∀ tcdf : ℕ → ℝ → ℝ,
      findContent (writtenFiles (processHyp tcdf 1 M2 Qones)) (tauName 1)
          = some none ∧
        writtenNames (processHyp tcdf 1 M2 Qones)
          = [tName 1, pName 1, fdrName 1, tauName 1] :=
  fun tcdf => processHyp_M2_files tcdf

/-- The content a sequence of writes leaves under name `s` is the last
content written under `s`, if any. -/
lemma writeAll_apply {v : ℕ} (l : List (String × Option (Fin v → ℝ)))
    (fs : FS v) (s : String) :
    writeAll l fs s = match l.reverse.find? (fun e => e.1 == s) with
      | some e => some e.2
      | none => fs s := by
  induction l generalizing fs with
  | nil => rfl
  | cons e t ih =>
    rw [writeAll, ih, List.reverse_cons, List.find?_append]
    cases hf : t.reverse.find? (fun e' => e'.1 == s) with
    | some e' => rfl
    | none =>
      by_cases hs : e.1 = s
      · subst hs
        rw [show List.find? (fun e' => e'.1 == e.1) [e] = some e from
          List.find?_cons_of_pos _ (beq_self_eq_true e.1)]
        show setFile fs e.1 e.2 e.1 = some e.2
        rw [setFile, if_pos rfl]
      · have hnb : ¬((e.1 == s) = true) := fun hh => hs (beq_iff_eq.mp hh)
        rw [show List.find? (fun e' => e'.1 == s) [e] = none from by
          rw [List.find?_singleton, if_neg hnb]]
        show setFile fs e.1 e.2 s = fs s
        rw [setFile, if_neg (Ne.symm hs)]

/-- Re-writing the same file list is a no-op: the writes are idempotent. -/
lemma writeAll_idem {v : ℕ} (l : List (String × Option (Fin v → ℝ)))
    (fs : FS v) : writeAll l (writeAll l fs) = writeAll l fs := by
  funext s
  rw [writeAll_apply, writeAll_apply]
  cases hf : l.reverse.find? (fun e => e.1 == s) with
  | some e => rfl
  | none => rfl

/-- C8, amended.  With `overwrite=false` the hypothesis is skipped — leaving
the directory unchanged — exactly when the `hypo{N}_1-fdr.nii.gz` sentinel
exists (the other three artifacts are not checked); when the sentinel is
absent it behaves as a recomputation, and with `overwrite=true` the
recomputation is deterministic and idempotent. -/
theorem overwrite_policy {n v : ℕ} (tcdf : ℕ → ℝ → ℝ) (hyp : ℕ) (fs : FS v)
    (M : Fin n → Fin v → ℚ) (Q : Fin n → Fin n → ℚ) :
    ((fs (fdrName hyp)).isSome = true → runHyp tcdf false hyp fs M Q = fs) ∧
      (fs (fdrName hyp) = none →
        runHyp tcdf false hyp fs M Q = runHyp tcdf true hyp fs M Q) ∧
      runHyp tcdf true hyp (runHyp tcdf true hyp fs M Q) M Q
        = runHyp tcdf true hyp fs M Q := by
  have hT : ∀ g : FS v, runHyp tcdf true hyp g M Q
      = applyRun g (processHyp tcdf hyp M Q) := by
    intro g
    rw [runHyp, if_neg]
    rintro ⟨h, _⟩
    exact Bool.noConfusion h
  refine ⟨fun hfdr => ?_, fun hnone => ?_, ?_⟩
  · rw [runHyp, if_pos ⟨rfl, hfdr⟩]
  · rw [runHyp, if_neg ?_, hT]
    rintro ⟨_, h⟩
    rw [hnone] at h
    exact Bool.noConfusion h
  · simp only [hT]
    cases hp : processHyp tcdf hyp M Q with
    | error e => rfl
    | ok files => exact writeAll_idem files fs

/-- C8, counterexample.  The claim says recomputation is skipped if and only
if the hypothesis's target artifacts already exist.  In `fs0` only the
`1-fdr` sentinel exists — the t, 1-p and tau artifacts are all absent — yet
the run with `overwrite=false` still skips, leaving the directory
unchanged: the code checks only `hypo{N}_1-fdr.nii.gz`. -/
theorem overwrite_sentinel_counterexample :
    (fs0 (fdrName 1)).isSome = true ∧ fs0 (tName 1) = none ∧
      fs0 (pName 1) = none ∧ fs0 (tauName 1) = none ∧
      runHyp tcdf0 false 1 fs0 M2 Qones = fs0 := by
  have hfdr : (fs0 (fdrName 1)).isSome = true := rfl
  refine ⟨hfdr, rfl, rfl, rfl, ?_⟩
  rw [runHyp, if_pos ⟨rfl, hfdr⟩]

/-- C8 witness: on the concrete directory `fs0` the sentinel is present and
the skip leaves it unchanged, and the `overwrite=true` recomputation on the
concrete scenario input is idempotent. -/
theorem overwrite_policy_witness :
    (fs0 (fdrName 1)).isSome = true ∧
      runHyp tcdf0 false 1 fs0 M2 Qones = fs0 ∧
      runHyp tcdf0 true 1 (runHyp tcdf0 true 1 fs0 M2 Qones) M2 Qones
        = runHyp tcdf0 true 1 fs0 M2 Qones := by
  have hfdr : (fs0 (fdrName 1)).isSome = true := rfl
  have h := overwrite_policy tcdf0 1 fs0 M2 Qones
  exact ⟨hfdr, h.1 hfdr, h.2.2⟩

/-! ### FDR monotonicity in the level -/

/-- BH rejection counts grow with the level: the rejection set is a filter
by `adjusted p-value at most the level`. -/
lemma bhCount_mono {K : Type} [LinearOrderedField K] {m : ℕ} (p : Fin m → K)
    {a b : K} (hab : a ≤ b) : bhCount m p a ≤ bhCount m p b := by
  apply Finset.card_le_card
  intro k hk
  rw [Finset.mem_filter] at hk ⊢
  exact ⟨hk.1, le_trans hk.2 hab⟩

/-- At most `m` hypotheses are ever rejected. -/
lemma bhCount_le {K : Type} [LinearOrderedField K] (m : ℕ) (p : Fin m → K)
    (a : K) : bhCount m p a ≤ m := by
  calc bhCount m p a ≤ (Finset.range m).card := Finset.card_filter_le _ _
    _ = m := Finset.card_range m

/-- The stage-1 level `a / (1 + a)` is monotone in `a` on `a ≥ 0`. -/
lemma stageOne_mono {K : Type} [LinearOrderedField K] {a b : K} (h0 : 0 ≤ a)
    (hab : a ≤ b) : a / (1 + a) ≤ b / (1 + b) := by
  have ha : (0 : K) < 1 + a := by linarith
  have hb : (0 : K) < 1 + b := by linarith
  rw [div_le_div_iff₀ ha hb]
  nlinarith

/-- C9.  The two-stage FDR rejection count is monotone in the significance
level: decreasing alpha never increases the rejection count.  Both stages
are monotone — the stage-1 level `a/(1+a)` grows with `a`, the estimated
null count `m - r1` shrinks, hence the stage-2 level grows — and the
degenerate branches are absorbing. -/
theorem fdr_rejections_monotone {K : Type} [LinearOrderedField K] {m : ℕ}
    (p : Fin m → K) {a b : K} (h0 : 0 ≤ a) (hab : a ≤ b) :
    tsbhCount m p a ≤ tsbhCount m p b := by
  have hb0 : 0 ≤ b := le_trans h0 hab
  have hr : bhCount m p (a / (1 + a)) ≤ bhCount m p (b / (1 + b)) :=
    bhCount_mono p (stageOne_mono h0 hab)
  rw [tsbhCount, tsbhCount]
  by_cases h1 : bhCount m p (a / (1 + a)) = 0
  · rw [if_pos h1]
    exact Nat.zero_le _
  · rw [if_neg h1]
    have h1b : bhCount m p (b / (1 + b)) ≠ 0 := by
      intro hb
      exact h1 (Nat.le_zero.mp (hb ▸ hr))
    rw [if_neg h1b]
    by_cases h2 : bhCount m p (a / (1 + a)) = m
    · rw [if_pos h2]
      have h2b : bhCount m p (b / (1 + b)) = m :=
        le_antisymm (bhCount_le m p _) (le_of_eq_of_le h2.symm hr)
      rw [if_pos h2b]
    · rw [if_neg h2]
      by_cases h2b : bhCount m p (b / (1 + b)) = m
      · rw [if_pos h2b]
        exact bhCount_le m p _
      · rw [if_neg h2b]
        apply bhCount_mono
        have hmb : bhCount m p (b / (1 + b)) < m :=
          lt_of_le_of_ne (bhCount_le m p _) h2b
        have hdb : (0 : K) < ((m - bhCount m p (b / (1 + b)) : ℕ) : K) := by
          exact_mod_cast Nat.sub_pos_of_lt hmb
        have hden : ((m - bhCount m p (b / (1 + b)) : ℕ) : K)
            ≤ ((m - bhCount m p (a / (1 + a)) : ℕ) : K) := by
          exact_mod_cast Nat.sub_le_sub_left hr m
        have hnum : a / (1 + a) * m ≤ b / (1 + b) * m :=
          mul_le_mul_of_nonneg_right (stageOne_mono h0 hab)
            (Nat.cast_nonneg m)
        have hbnum : 0 ≤ b / (1 + b) * m :=
          mul_nonneg (div_nonneg hb0 (by linarith)) (Nat.cast_nonneg m)
        exact div_le_div₀ hbnum hnum hdb hden

/-- C9 witness: at the spec's concrete levels, the rejection count at
`alpha = 0.10` is at least the rejection count at `alpha = 0.05`. -/
theorem fdr_rejections_monotone_witness :
    (0 : ℚ) ≤ 1 / 20 ∧ (1 / 20 : ℚ) ≤ 1 / 10 ∧
      tsbhCount 3 p0 (1 / 20) ≤ tsbhCount 3 p0 (1 / 10) :=
  ⟨by norm_num, by norm_num,
    fdr_rejections_monotone p0 (by norm_num) (by norm_num)⟩

/-- C1 witness: the row-wise characterization of the variance estimate,
instantiated on the concrete matrix `M0`. -/
theorem variance_estimate_rowwise_witness :
    0 < 2 ∧ imgVar M0
      = (∑ i, ((∑ j, M0 i j ^ 2) / (2 : ℕ) - rowMean M0 i ^ 2)) / (2 : ℕ) :=
  ⟨by norm_num, variance_estimate_rowwise (by norm_num) M0⟩

end ConsensusAnalysis

